import Mathlib

/-!
Verification development for the industrial-sensor-chatbot analysis pipeline.

The Lean definitions below are a shallow embedding of the Python sources:

* `src/analysis/feature_extractor.py` — windowed feature extraction
  (`process_sensor_dataframe_vectorized`), per-acquisition processing
  (`process_single_acquisition_folder`) and the corpus merge
  (`load_and_label_all_data_parallel`);
* `src/analysis/feature_importance.py` — the sensor-file resolver
  (`get_valid_sensor_files`) and the control skeleton of `run_analysis`;
* `src/agent/core.py` — the feature-importance branch of
  `generate_ollma_response` that guards the algorithm tag.

Modelling conventions:

* Python strings used as filenames/stems are modelled as `List Char`
  (so that splitting on `'_'` is a plain recursive function);
* floating-point sample values and sampling rates are modelled as `ℚ`
  with exact arithmetic;
* `np.sqrt` applied at the very end of the std/RMS computations is an
  order isomorphism on the nonnegative radicands and is dropped from the
  model (the model records the radicand; noted at each definition);
* `NaN`/`±inf` cells of a loaded table are modelled as `none : Option ℚ`;
* pandas/sklearn internals that no claim depends on (the per-file
  classifier fit) are abstracted as function parameters, applied to
  exactly the data the Python code passes them.
-/

/-! ## List-of-characters string primitives

`splitFirst sep s` models Python `s.split(sep, 1)` (for `sep ∈ s`,
returning the part before the first separator and the rest);
`splitAll sep s` models Python `s.split(sep)`. -/

/-- Model of Python `s.split(sep, 1)`: `none` when `sep` does not occur,
otherwise the parts before and after the first occurrence. -/
def splitFirst (sep : Char) : List Char → Option (List Char × List Char)
  | [] => none
  | c :: cs =>
    if c = sep then some ([], cs)
    else (splitFirst sep cs).map fun p => (c :: p.1, p.2)

/-- Model of Python `s.split(sep)`: the list of separator-free fragments
(Python returns `[s]` when the separator is absent, and a fragment for each
side of each occurrence otherwise). -/
def splitAll (sep : Char) : List Char → List (List Char)
  | [] => [[]]
  | c :: cs =>
    if c = sep then [] :: splitAll sep cs
    else
      match splitAll sep cs with
      | [] => [[c]]
      | p :: ps => (c :: p) :: ps

/-! ## Sensor File Resolver (`get_valid_sensor_files`) -/

/-- Stems of the CSV files in the feature directory (file name minus the
`.csv` suffix), modelled as character lists. -/
abbrev Stem := List Char

/-- Parse `NAME_TYPE` out of a file stem at the first underscore, exactly as
`filename.split("_", 1)` does in `get_valid_sensor_files`; `none` for stems
without an underscore (those are skipped when building `available_map`). -/
def stemKey (s : Stem) : Option (Stem × Stem) := splitFirst '_' s

/-- The entries of `available_map`: each underscore-bearing stem together
with its `(sensor_name, sensor_type)` key. Stems without an underscore are
dropped (`if "_" not in filename: continue`). -/
def keyedFiles (files : List Stem) : List ((Stem × Stem) × Stem) :=
  files.filterMap fun f => (stemKey f).map fun p => (p, f)

/-- All paths reachable through `available_map` (used by the
`[None, None]` request branch, which extends `valid_paths` with every
value of every inner dictionary). -/
def allKeyedPaths (files : List Stem) : List Stem :=
  (keyedFiles files).map (·.2)

/-- Paths of every sensor that has the requested type, as collected by the
`req_name is None` branch iterating over all sensor names. -/
def typePaths (files : List Stem) (t : Stem) : List Stem :=
  ((keyedFiles files).filter fun e => e.1.2 == t).map (·.2)

/-- Paths of every type-table of one sensor name
(`available_map[req_name].values()`). -/
def namePaths (files : List Stem) (n : Stem) : List Stem :=
  ((keyedFiles files).filter fun e => e.1.1 == n).map (·.2)

/-- Test `req_name in available_map`. -/
def nameExistsB (files : List Stem) (n : Stem) : Bool :=
  (keyedFiles files).any fun e => e.1.1 == n

/-- Paths whose key matches an exact `(name, type)` request
(`available_map[req_name][req_type]`; at most one for duplicate-free
directories). -/
def exactPaths (files : List Stem) (n t : Stem) : List Stem :=
  ((keyedFiles files).filter fun e => e.1.1 == n && e.1.2 == t).map (·.2)

/-- One user request: `(name, type)` with either element possibly `None`. -/
abbrev SensorRequest := Option Stem × Option Stem

/-- Paths appended to `valid_paths` for one request, following the four
branches of the request loop in `get_valid_sensor_files`. A request whose
lookup fails appends nothing. -/
def reqHits (files : List Stem) : SensorRequest → List Stem
  | (none, none) => allKeyedPaths files
  | (none, some t) => typePaths files t
  | (some n, none) => if nameExistsB files n then namePaths files n else []
  | (some n, some t) => exactPaths files n t

/-- Whether one request leaves `all_correct` untouched (`true`) or sets it
to `False`, following the same four branches. -/
def reqOk (files : List Stem) : SensorRequest → Bool
  | (none, none) => true
  | (none, some t) => !(typePaths files t).isEmpty
  | (some n, none) => nameExistsB files n
  | (some n, some t) => !(exactPaths files n t).isEmpty

/-- One iteration of the request loop: conjoin the validity flag, extend the
accumulated path list. -/
def resolveStep (files : List Stem) (acc : Bool × List Stem)
    (req : SensorRequest) : Bool × List Stem :=
  (acc.1 && reqOk files req, acc.2 ++ reqHits files req)

/-- Model of `get_valid_sensor_files(data_folder, target_sensors)`.
`files` are the stems of the CSV files found by the glob; an empty request
list returns every file at once; otherwise the request loop runs and the
final `list(set(valid_paths))` deduplication is modelled by `List.dedup`
(the Python `set` also destroys order; every property proved below is
order-insensitive). -/
def get_valid_sensor_files (files : List Stem)
    (target_sensors : List SensorRequest) : Bool × List Stem :=
  if target_sensors.isEmpty then (true, files)
  else
    let r := target_sensors.foldl (resolveStep files) (true, [])
    (r.1, r.2.dedup)

/-! ## `run_analysis` control skeleton

Only the control flow of `run_analysis` is modelled: the resolver call, the
three return shapes, and the fact that the global ranking is the
concatenation of per-file record lists. The per-file classifier fit is
abstracted as `perFile` (it can only contribute records, never alter the
control flow: files that are skipped by the `continue` contribute `[]`).

Return-shape encoding of the Python function:
* Python `None` (the bare `return` on an empty ranking)  ↦  `none`;
* `(False, ())`  ↦  `some (false, none)`;
* `(True, (sensor_scores, top_features, ax1, ax2))` ↦ `some (true, some r)`
  where `r` is the nonempty ranking the payload is built from. -/
def run_analysis {α : Type} (files : List Stem)
    (target_sensors : List SensorRequest) (perFile : Stem → List α) :
    Option (Bool × Option (List α)) :=
  let r := get_valid_sensor_files files target_sensors
  if !r.1 then some (false, none)
  else
    let global_ranking := (r.2.map perFile).flatten
    if global_ranking.isEmpty then none
    else some (true, some global_ranking)

/-! ## Analyzer bad-row policy (`run_analysis`, data-cleaning step)

A loaded feature table is a list of rows; a cell is `none` when the CSV
holds `NaN`/`±inf` there and `some q` for an ordinary value. -/

/-- Cell of a loaded feature table: `none` models `NaN`, `inf` and `-inf`. -/
abbrev TCell := Option ℚ

/-- Python `X.isin([np.nan, np.inf, -np.inf]).any(axis=1)` for one row. -/
def badRow (r : List TCell) : Bool := r.any Option.isNone

/-- Python `X.size`: the total number of cells of the table. -/
def tableSize (X : List (List TCell)) : ℕ := (X.map List.length).sum

/-- The bad-row policy of `run_analysis`: count the rows that contain a
missing/infinite value; if `(bad_rows.sum() / X.size) * 100 <= 5` (the
float division is modelled exactly, as `bad * 100 ≤ 5 * size`) the bad rows
are dropped, otherwise every missing/infinite cell of the table is replaced
with `0`. -/
def clean_features (X : List (List TCell)) : List (List TCell) :=
  let nBad := (X.filter badRow).length
  if nBad * 100 ≤ 5 * tableSize X then X.filter fun r => !badRow r
  else X.map fun r => r.map fun c => some (c.getD 0)

/-- Modelled from the claim's words only (not from the source): the same
policy with the 5% threshold measured against the table's ROW count instead
of `X.size`. Compared against `clean_features` to settle the claim. -/
def clean_features_rowfrac (X : List (List TCell)) : List (List TCell) :=
  let nBad := (X.filter badRow).length
  if nBad * 100 ≤ 5 * X.length then X.filter fun r => !badRow r
  else X.map fun r => r.map fun c => some (c.getD 0)

/-! ## Window length derivation (`process_single_acquisition_folder`) -/

/-- Configuration constant `TARGET_SECONDS = 1.0`. -/
def TARGET_SECONDS : ℚ := 1

/-- Configuration constant `MASTER_DURATION = 1.23` (exact decimal). -/
def MASTER_DURATION : ℚ := 123 / 100

/-- Python `1 << (n - 1).bit_length()`; `Nat.size` is exactly
`int.bit_length` and `<<<` is the shift. -/
def next_pow2_bit (n : ℕ) : ℕ := 1 <<< Nat.size (n - 1)

/-- Window length computed by `process_single_acquisition_folder` from the
sampling rate `odr`. Python `int(...)` truncates; for the positive rates
appearing here truncation is `Int.toNat ∘ Int.floor`. -/
def window_size_of (odr : ℚ) : ℕ :=
  if 1000 < odr then next_pow2_bit (Int.toNat ⌊odr * TARGET_SECONDS⌋)
  else max 1 (Int.toNat ⌊odr * MASTER_DURATION⌋)

/-- Least power of two that is `≥ n` (the conventional reading of
"next power of two"; used to state what `next_pow2_bit` computes). -/
def next_pow2_spec (n : ℕ) : ℕ := 2 ^ Nat.clog 2 n

/-- Modelled from the claim's words only (not from the source): the window
rule with `round(...)` in place of the code's `int(...)` truncation
(`round` is Mathlib's round-half-up on `ℚ`; the inputs it is compared on
are far from ties, so the tie-breaking convention is irrelevant). -/
def window_size_round_claim (odr : ℚ) : ℕ :=
  if 1000 < odr then next_pow2_bit (Int.toNat (round (odr * TARGET_SECONDS)))
  else max 1 (Int.toNat (round (odr * MASTER_DURATION)))

/-! ## Windowed Feature Extractor (`process_sensor_dataframe_vectorized`)

A data frame is modelled as a list of named columns over an explicit row
count; a column's samples are a total function `ℕ → ℚ` of the row index
(pandas guarantees all columns share the row count `len(df)`). -/

/-- Column names excluded from the statistics (`Time` and the tag columns). -/
def tag_cols : List String :=
  ["Time", "SW_TAG_0", "SW_TAG_1", "SW_TAG_2",
   "HW_TAG_0", "HW_TAG_1", "HW_TAG_2", "HW_TAG_3", "HW_TAG_4"]

/-- Model of the pandas data frame handed to the extractor. -/
structure PDataFrame where
  cols : List (String × (ℕ → ℚ))
  nRows : ℕ

/-- Python `data_cols`: every column whose name is not an excluded tag. -/
def data_cols (df : PDataFrame) : List (String × (ℕ → ℚ)) :=
  df.cols.filter fun c => !(tag_cols.contains c.1)

/-- The samples of window `w` of a column: indices
`w*W, w*W+1, …, w*W+W-1` in order. -/
def windowSlice (f : ℕ → ℚ) (w W : ℕ) : List ℚ :=
  (List.range W).map fun i => f (w * W + i)

/-- `np.mean` over one window. -/
def listMean (l : List ℚ) : ℚ := l.sum / l.length

/-- Square of `np.std` (population standard deviation) over one window; the
final `np.sqrt` is an order isomorphism on the radicand and is not part of
the model. -/
def listStdSq (l : List ℚ) : ℚ :=
  ((l.map fun x => (x - listMean l) ^ 2).sum) / l.length

/-- `np.max` over one window. -/
def listPeak : List ℚ → ℚ
  | [] => 0
  | x :: xs => xs.foldl max x

/-- Square of the RMS (`np.sqrt(np.mean(x ** 2))`) over one window; as for
the std, the model records the radicand. (The Python cast of the result to
`float32` only coarsens the value and is likewise not modelled.) -/
def listRmsSq (l : List ℚ) : ℚ := ((l.map fun x => x ^ 2).sum) / l.length

/-- `scipy.stats.kurtosis` (Fisher) over one window, composed with the
`np.nan_to_num(…, nan=0.0)` of the source: `m4 / m2² - 3`, with the
zero-variance windows (where scipy yields `NaN`) coerced to `0`. -/
def listKurtosis (l : List ℚ) : ℚ :=
  let mu := listMean l
  let m2 : ℚ := ((l.map fun x => (x - mu) ^ 2).sum) / l.length
  let m4 : ℚ := ((l.map fun x => (x - mu) ^ 4).sum) / l.length
  if m2 = 0 then 0 else m4 / m2 ^ 2 - 3

/-- Output table of the extractor: the numeric feature columns and the
replicated metadata columns, each carried as a named list of per-window
values. The empty table is `⟨[], []⟩`. -/
structure FeatureTable where
  feat : List (String × List ℚ)
  meta : List (String × List String)
deriving DecidableEq

/-- Python `pd.DataFrame()` returned on the two early exits. -/
def emptyFeatureTable : FeatureTable := ⟨[], []⟩

/-- Python `col_name.split()[0]`: strip the unit annotation, keeping the
text before the first blank. -/
def cleanAxisName (s : String) : String := s.takeWhile fun ch => ch ≠ ' '

/-- The output columns contributed by one data column: mean, std, peak,
kurtosis, RMS, and — only when the sampling rate exceeds 1000 Hz — the
spectral peak frequency. The FFT peak-frequency value is not expressible
over `ℚ`; it is abstracted as the parameter `specFn`, applied to exactly
the window slice the Python FFT reads (all claims hold for every such
function). -/
def statColumns (specFn : List ℚ → ℚ) (sName sType : String) (odr : ℚ)
    (nWins W : ℕ) (c : String × (ℕ → ℚ)) : List (String × List ℚ) :=
  let pfx := sName ++ "_" ++ sType ++ "_" ++ cleanAxisName c.1
  [(pfx ++ "_mean", (List.range nWins).map fun w => listMean (windowSlice c.2 w W)),
   (pfx ++ "_std", (List.range nWins).map fun w => listStdSq (windowSlice c.2 w W)),
   (pfx ++ "_peak", (List.range nWins).map fun w => listPeak (windowSlice c.2 w W)),
   (pfx ++ "_kurtosis", (List.range nWins).map fun w => listKurtosis (windowSlice c.2 w W)),
   (pfx ++ "_rms", (List.range nWins).map fun w => listRmsSq (windowSlice c.2 w W))]
  ++ (if 1000 < odr then
        [(pfx ++ "_peak_freq", (List.range nWins).map fun w => specFn (windowSlice c.2 w W))]
      else [])

/-- Model of `process_sensor_dataframe_vectorized(df, window_size,
sensor_name, sensor_type, metadata_dict, odr)`: filter the data columns
(empty ⇒ empty table), compute `n_windows = n_rows // window_size`
(zero ⇒ empty table), truncate to the first `n_windows * window_size`
samples (the reshape reads nothing beyond them), compute the per-window
statistics per column, then replicate each metadata entry once per window. -/
def process_sensor_dataframe_vectorized (specFn : List ℚ → ℚ)
    (df : PDataFrame) (window_size : ℕ) (sName sType : String)
    (metadata : List (String × String)) (odr : ℚ) : FeatureTable :=
  let dcols := data_cols df
  if dcols.isEmpty then emptyFeatureTable
  else
    let nWins := df.nRows / window_size
    if nWins = 0 then emptyFeatureTable
    else
      { feat := (dcols.map (statColumns specFn sName sType odr nWins window_size)).flatten,
        meta := metadata.map fun kv => (kv.1, List.replicate nWins kv.2) }

/-! ## Acquisition Processor control flow
(`process_single_acquisition_folder`)

The per-file work (parse the stem, look up the sampling rate, read the
parquet, window and extract) is abstracted as `step`, which may fail
(`Except.error` models a raised exception). The source wraps the WHOLE
`for` loop over the folder's files in one `try`; the model reproduces that
placement: an error ends the loop, the accumulated results are returned. -/

/-- The `for file_path in glob(...)` loop under the folder-level `try`:
each successful step contributes its keyed table unless the table is empty
(`if not batch_df.empty`); a raised exception aborts the loop and the
`except` returns what was accumulated so far. -/
def process_files_go {α β ε : Type} (step : α → Except ε (String × List β)) :
    List α → List (String × List β) → List (String × List β)
  | [], acc => acc
  | f :: fs, acc =>
    match step f with
    | .ok (k, t) => process_files_go step fs (if t.isEmpty then acc else acc ++ [(k, t)])
    | .error _ => acc

/-- Model of `process_single_acquisition_folder`: run the guarded loop over
the folder's sensor files starting from an empty `local_results`. -/
def process_single_acquisition_folder {α β ε : Type}
    (step : α → Except ε (String × List β)) (files : List α) :
    List (String × List β) :=
  process_files_go step files []

/-- The corpus fan-out of `load_and_label_all_data_parallel`: one folder
task per acquisition, every task returning normally (the folder-level
`except` swallows all per-file failures), so each acquisition contributes
exactly one result dictionary. -/
def corpus_results {α β ε : Type} (step : α → Except ε (String × List β))
    (tasks : List (List α)) : List (List (String × List β)) :=
  tasks.map (process_single_acquisition_folder step)

/-- A concrete per-file step used to exercise the model: file `0` raises,
any other file `n` yields a one-row table under key `"S_ACC"`. -/
def stepWithBadFirst : ℕ → Except Unit (String × List ℕ) :=
  fun n => if n = 0 then .error () else .ok ("S_ACC", [n])

/-! ## Corpus Builder merge (`load_and_label_all_data_parallel`) -/

/-- The rows a single task result contributes to sensor key `k`: the task's
dictionary holds at most one table per key; absent keys contribute nothing. -/
def rows_for {β : Type} (k : String) (d : List (String × List β)) : List β :=
  ((d.filter fun e => e.1 == k).map (·.2)).flatten

/-- The merged Sensor Feature Table for key `k`: the concatenation, in task
order, of every task's table for `k` (the bucket-append loop followed by
`pd.concat`). -/
def merged_rows {β : Type} (k : String)
    (results : List (List (String × List β))) : List β :=
  (results.map (rows_for k)).flatten

/-! ## Algorithm-tag guard (`generate_ollma_response`, feature-importance
branch of `src/agent/core.py`) -/

/-- Keys of `config.ALGORITHMS` (`rf`, `lr`, `dt`). -/
def ALGORITHMS : List String := ["rf", "lr", "dt"]

/-- Outcome of the feature-importance branch: which terminal the control
flow reaches. `analysisRun alg valid` is the only outcome that performs any
feature-table file I/O (the feature-extraction call and `run_analysis`
live in that branch alone); it records the tag actually passed to
`run_analysis` and the validity flag `run_analysis` came back with. -/
inductive FIOutcome where
  | missingDataset
  | vague
  | invalidAlgorithm
  | analysisRun (alg : String) (analysisValid : Bool)
deriving DecidableEq

/-- The guard cascade of the `feature_importance_analysis` branch:
missing dataset path, vague request, then
`alg == "unsupported" or alg not in ALGORITHMS.keys()`, and only past all
three does the code reach the file-loading/analysis else-branch. -/
def feature_importance_branch (hasDatasetPath isVague : Bool) (alg : String)
    (analysisValid : Bool) : FIOutcome :=
  if !hasDatasetPath then .missingDataset
  else if isVague then .vague
  else if alg == "unsupported" || !(ALGORITHMS.contains alg) then .invalidAlgorithm
  else .analysisRun alg analysisValid

/-- The `system_flag` string each outcome produces (success leaves the flag
empty and the epilogue turns it into `DATA_ANALYSIS_SUCCESS`). -/
def fi_system_flag : FIOutcome → String
  | .missingDataset => "MISSING_DATASET"
  | .vague => "VAGUE"
  | .invalidAlgorithm => "INVALID_ALGORITHM"
  | .analysisRun _ true => "DATA_ANALYSIS_SUCCESS"
  | .analysisRun _ false => "INVALID_SENSORS"

/-- Whether an outcome entails loading feature tables from disk. -/
def fi_loads_feature_tables : FIOutcome → Bool
  | .analysisRun _ _ => true
  | _ => false

/-! ## Sensor-key construction (`process_single_acquisition_folder`)
versus resolver parsing (`get_valid_sensor_files`) -/

/-- The `(sensor_name, sensor_type)` the Acquisition Processor reads off a
parquet stem: `stem.split("_")[0]` and `stem.split("_")[1]` (`none` when
the stem has no underscore — there the Python indexing raises and the
folder-level `try` swallows the file). -/
def processor_key_parts (stem : Stem) : Option (Stem × Stem) :=
  match splitAll '_' stem with
  | t0 :: t1 :: _ => some (t0, t1)
  | _ => none

/-- Python `f"{sensor_name}_{sensor_type}"`: the key under which the table
is accumulated and, with `.csv` appended, persisted. -/
def sensor_key (n t : Stem) : Stem := n ++ '_' :: t

/-! ## Characterization predicates used in theorem statements -/

/-- When one request is satisfiable against the available files, stated
directly over the file stems (proved equivalent to the code's `reqOk`). -/
def SatReq (files : List Stem) : SensorRequest → Prop
  | (none, none) => True
  | (none, some t) => ∃ f ∈ files, ∃ n, stemKey f = some (n, t)
  | (some n, none) => ∃ f ∈ files, ∃ t, stemKey f = some (n, t)
  | (some n, some t) => ∃ f ∈ files, stemKey f = some (n, t)

/-- When a path is among the resolutions of one request, stated directly
over the file stems (proved equivalent to membership in the code's
per-request hits). -/
def ReqResolves (files : List Stem) (req : SensorRequest) (p : Stem) : Prop :=
  match req with
  | (none, none) => p ∈ files ∧ ∃ n t, stemKey p = some (n, t)
  | (none, some t) => p ∈ files ∧ ∃ n, stemKey p = some (n, t)
  | (some n, none) => p ∈ files ∧ ∃ t, stemKey p = some (n, t)
  | (some n, some t) => p ∈ files ∧ stemKey p = some (n, t)

/-! # Helper lemmas -/

/-- A permutation of the outer lists permutes the concatenation. -/
theorem perm_flatten_of_perm {α : Type} {l₁ l₂ : List (List α)}
    (h : l₁.Perm l₂) : l₁.flatten.Perm l₂.flatten := by
  induction h with
  | nil => exact .refl _
  | cons x _ ih => simpa using ih.append_left x
  | swap x y l =>
    have h1 : (y ++ x ++ l.flatten).Perm (x ++ y ++ l.flatten) :=
      List.Perm.append_right _ List.perm_append_comm
    simpa [List.append_assoc] using h1
  | trans _ _ ih₁ ih₂ => exact ih₁.trans ih₂

/-- A successful step is an `Except.ok`. -/
theorem exists_ok_of_isOk {ε α : Type} {e : Except ε α} (h : e.isOk = true) :
    ∃ v, e = .ok v := by
  cases e with
  | ok v => exact ⟨v, rfl⟩
  | error _ => simp [Except.isOk, Except.toBool] at h

/-- A failed step is an `Except.error`. -/
theorem exists_error_of_not_isOk {ε α : Type} {e : Except ε α}
    (h : e.isOk = false) : ∃ x, e = .error x := by
  cases e with
  | ok v => simp [Except.isOk, Except.toBool] at h
  | error x => exact ⟨x, rfl⟩

/-- Replacing every cell by `some (getD 0)` is cellwise described by
`Forall₂`. -/
theorem forall₂_replace_row (l : List TCell) :
    List.Forall₂ (fun c c0 => c = some (Option.getD c0 0))
      (l.map fun c => some (c.getD 0)) l := by
  induction l with
  | nil => simp
  | cons c cs ih => exact List.Forall₂.cons rfl ih

/-- Rowwise version of `forall₂_replace_row` for a whole table. -/
theorem forall₂_replace_table (X : List (List TCell)) :
    List.Forall₂ (fun r r0 =>
        List.Forall₂ (fun c c0 => c = some (Option.getD c0 0)) r r0)
      (X.map fun r => r.map fun c => some (c.getD 0)) X := by
  induction X with
  | nil => simp
  | cons r rs ih => exact List.Forall₂.cons (forall₂_replace_row r) ih

/-! # Claim theorems -/

/-- Claim C1 (confirmed): an algorithm tag outside `{rf, dt, lr}` is caught
by the guard of the feature-importance branch before the control flow ever
reaches the file-loading/analysis branch: no feature-table file I/O
happens, `run_analysis` is never invoked (so the tag is not silently
defaulted), and — once the earlier dataset/vagueness guards pass — the
reported flag is `INVALID_ALGORITHM`, distinct from the `INVALID_SENSORS`
flag that reports the "no data found" outcome. -/
theorem unsupported_algorithm_guard (hasDS isVague analysisValid : Bool)
    (alg : String) (halg : alg ∉ ALGORITHMS) :
    fi_loads_feature_tables
        (feature_importance_branch hasDS isVague alg analysisValid) = false ∧
    (∀ a v, feature_importance_branch hasDS isVague alg analysisValid ≠
        .analysisRun a v) ∧
    (hasDS = true → isVague = false →
      fi_system_flag (feature_importance_branch hasDS isVague alg analysisValid) =
        "INVALID_ALGORITHM") ∧
    fi_system_flag (.analysisRun alg false) = "INVALID_SENSORS" ∧
    "INVALID_ALGORITHM" ≠ "INVALID_SENSORS" := by
  cases hasDS <;> cases isVague <;>
    simp [feature_importance_branch, fi_loads_feature_tables, fi_system_flag, halg]

/-- Witness for C1 at the concrete tag `svm`. -/
theorem unsupported_algorithm_guard_witness :
    "svm" ∉ ALGORITHMS ∧
    (fi_loads_feature_tables
        (feature_importance_branch true false "svm" true) = false ∧
    (∀ a v, feature_importance_branch true false "svm" true ≠
        .analysisRun a v) ∧
    (true = true → false = false →
      fi_system_flag (feature_importance_branch true false "svm" true) =
        "INVALID_ALGORITHM") ∧
    fi_system_flag (.analysisRun "svm" false) = "INVALID_SENSORS" ∧
    "INVALID_ALGORITHM" ≠ "INVALID_SENSORS") :=
  ⟨by decide, unsupported_algorithm_guard true false true "svm" (by decide)⟩

/-- Claim C2 (code bug): the two failure paths of `run_analysis` return
different shapes. With an unsatisfiable request the function returns
`(False, ())` — modelled `some (false, none)` — as the claim states; but
when every resolved file contributes nothing (here: an empty feature
directory under a global request) the `if not global_ranking: return`
yields the bare Python `None` — modelled `none` — which carries NO validity
flag at all (and makes the caller's tuple unpacking in
`generate_ollma_response` raise a `TypeError`). -/
theorem run_analysis_empty_ranking_returns_bare_none :
    run_analysis ([] : List Stem) [] (fun _ => ([] : List ℕ)) = none ∧
    run_analysis ([] : List Stem) [(some ['C'], none)]
      (fun _ => ([] : List ℕ)) = some (false, none) ∧
    (none : Option (Bool × Option (List ℕ))) ≠ some (false, none) := by
  refine ⟨rfl, rfl, by simp⟩

/-- Claim C3 (counterexample): in a folder whose file `0` raises and whose
file `1` is fine, the folder-level `try` aborts the whole loop: the result
mapping is empty, although file `1` alone would have produced its table —
so the remaining files of the acquisition are NOT still processed. -/
theorem single_file_failure_drops_rest :
    process_single_acquisition_folder stepWithBadFirst [0, 1] = [] ∧
    process_single_acquisition_folder stepWithBadFirst [1] = [("S_ACC", [1])] :=
  ⟨rfl, rfl⟩

/-- Claim C3 (amended): a failure on one sensor file ends that
acquisition's loop — the files before the failure keep their results, the
failing file and ALL later files of the same acquisition are skipped — and
the corpus run is not aborted: every acquisition still contributes exactly
one result. -/
theorem folder_failure_keeps_prefix {α β ε : Type}
    (step : α → Except ε (String × List β)) (gs : List α) (b : α)
    (rest : List α) (tasks : List (List α))
    (hg : ∀ g ∈ gs, (step g).isOk = true) (hb : (step b).isOk = false) :
    process_single_acquisition_folder step (gs ++ b :: rest) =
      process_single_acquisition_folder step gs ∧
    (corpus_results step tasks).length = tasks.length := by
  refine ⟨?_, by simp [corpus_results]⟩
  unfold process_single_acquisition_folder
  suffices h : ∀ gs : List α, (∀ g ∈ gs, (step g).isOk = true) → ∀ acc,
      process_files_go step (gs ++ b :: rest) acc = process_files_go step gs acc from
    h gs hg []
  intro gs hgs
  induction gs with
  | nil =>
    intro acc
    obtain ⟨x, hx⟩ := exists_error_of_not_isOk hb
    simp [process_files_go, hx]
  | cons g gs ih =>
    intro acc
    obtain ⟨v, hv⟩ := exists_ok_of_isOk (hgs g (by simp))
    simp only [List.cons_append, process_files_go, hv]
    exact ih (fun x hx => hgs x (by simp [hx])) _

/-- Witness for the amended C3. -/
theorem folder_failure_keeps_prefix_witness :
    (∀ g ∈ [1], (stepWithBadFirst g).isOk = true) ∧
    (stepWithBadFirst 0).isOk = false ∧
    (process_single_acquisition_folder stepWithBadFirst ([1] ++ 0 :: [2]) =
      process_single_acquisition_folder stepWithBadFirst [1] ∧
    (corpus_results stepWithBadFirst [[0], [1]]).length = [[0], [1]].length) :=
  ⟨by decide, by decide,
    folder_failure_keeps_prefix stepWithBadFirst [1] 0 [2] [[0], [1]]
      (by decide) (by decide)⟩

/-- Claim C8 (counterexample): a table of 10 rows and 3 columns whose first
row contains one missing value. The bad rows are 10% of the table's ROWS
(so the claim mandates zero-replacement), but `run_analysis` divides the
bad-row count by `X.size = 30` cells (3.3% ≤ 5%) and therefore DROPS the
row: the two policies produce different tables. -/
theorem bad_row_policy_counterexample :
    clean_features
        ([none, some 1, some 1] :: List.replicate 9 [some 1, some 1, some 1]) =
      List.replicate 9 [some 1, some 1, some 1] ∧
    clean_features_rowfrac
        ([none, some 1, some 1] :: List.replicate 9 [some 1, some 1, some 1]) =
      [some 0, some 1, some 1] :: List.replicate 9 [some 1, some 1, some 1] ∧
    clean_features
        ([none, some 1, some 1] :: List.replicate 9 [some 1, some 1, some 1]) ≠
      clean_features_rowfrac
        ([none, some 1, some 1] :: List.replicate 9 [some 1, some 1, some 1]) := by
  refine ⟨by decide, by decide, by decide⟩

/-- Claim C8 (amended): the policy threshold compares the bad-row count
against 5% of the table's CELL count (`X.size = rows × columns`): within
the threshold the bad rows are dropped (the good rows survive unchanged,
in order); above it the table keeps all its rows and every cell becomes
its original value with missing/infinite entries replaced by `0`. -/
theorem bad_row_policy_cellwise (X : List (List TCell)) :
    ((X.filter badRow).length * 100 ≤ 5 * tableSize X →
      clean_features X = X.filter fun r => !badRow r) ∧
    (¬ (X.filter badRow).length * 100 ≤ 5 * tableSize X →
      (clean_features X).length = X.length ∧
      List.Forall₂ (fun r r0 =>
          List.Forall₂ (fun c c0 => c = some (Option.getD c0 0)) r r0)
        (clean_features X) X) := by
  constructor
  · intro h
    simp only [clean_features, if_pos h]
  · intro h
    simp only [clean_features, if_neg h]
    exact ⟨by simp, forall₂_replace_table X⟩

/-- Witness for the amended C8, drop branch (one bad row in a 10×2 table:
exactly 5% of the 20 cells). -/
theorem bad_row_policy_cellwise_witness :
    (((([none, some 2] :: List.replicate 9 [some 1, some 2]).filter badRow).length * 100 ≤
        5 * tableSize ([none, some 2] :: List.replicate 9 [some 1, some 2]))) ∧
    clean_features ([none, some 2] :: List.replicate 9 [some 1, some 2]) =
      ([none, some 2] :: List.replicate 9 [some 1, some 2]).filter
        (fun r => !badRow r) :=
  ⟨by decide,
    (bad_row_policy_cellwise
        ([none, some 2] :: List.replicate 9 [some 1, some 2])).1 (by decide)⟩

/-- Claim C9 (confirmed): the merged Sensor Feature Table for a key is the
order-respecting concatenation of the per-task tables, so permuting the
task results permutes the merged rows (multiset equality), and the merge is
a monoid homomorphism from list concatenation (hence associative). -/
theorem merged_rows_order_independent {β : Type} (k : String)
    (r₁ r₂ : List (List (String × List β))) (h : r₁.Perm r₂) :
    (merged_rows k r₁).Perm (merged_rows k r₂) ∧
    ∀ s₁ s₂ : List (List (String × List β)),
      merged_rows k (s₁ ++ s₂) = merged_rows k s₁ ++ merged_rows k s₂ := by
  constructor
  · exact perm_flatten_of_perm (h.map _)
  · intro s₁ s₂
    simp [merged_rows]

/-- Witness for C9 on two concrete task results in swapped orders. -/
theorem merged_rows_order_independent_witness :
    ([[("S_ACC", [1, 2])], [("S_ACC", [3]), ("T_GYRO", [9])]].Perm
      [[("S_ACC", [3]), ("T_GYRO", [9])], [("S_ACC", [1, 2])]]) ∧
    ((merged_rows "S_ACC"
        [[("S_ACC", [1, 2])], [("S_ACC", [3]), ("T_GYRO", [9])]]).Perm
      (merged_rows "S_ACC"
        [[("S_ACC", [3]), ("T_GYRO", [9])], [("S_ACC", [1, 2])]]) ∧
    ∀ s₁ s₂ : List (List (String × List ℕ)),
      merged_rows "S_ACC" (s₁ ++ s₂) =
        merged_rows "S_ACC" s₁ ++ merged_rows "S_ACC" s₂) :=
  ⟨by decide,
    merged_rows_order_independent "S_ACC"
      [[("S_ACC", [1, 2])], [("S_ACC", [3]), ("T_GYRO", [9])]]
      [[("S_ACC", [3]), ("T_GYRO", [9])], [("S_ACC", [1, 2])]] (by decide)⟩

/-- The Python bit-trick `1 << (n - 1).bit_length()` computes the least
power of two that is `≥ n` (for `n ≥ 1`). -/
theorem next_pow2_bit_correct (n : ℕ) (hn : 1 ≤ n) :
    next_pow2_bit n = next_pow2_spec n ∧
    n ≤ next_pow2_bit n ∧
    ∀ k, n ≤ 2 ^ k → next_pow2_bit n ≤ 2 ^ k := by
  have hbit : next_pow2_bit n = 2 ^ Nat.size (n - 1) := by
    simp [next_pow2_bit, Nat.one_shiftLeft]
  have hle : n ≤ 2 ^ Nat.size (n - 1) := by
    have h1 := Nat.lt_size_self (n - 1)
    omega
  have hmin : ∀ k, n ≤ 2 ^ k → 2 ^ Nat.size (n - 1) ≤ 2 ^ k := by
    intro k hk
    have h1 : Nat.size (n - 1) ≤ k := Nat.size_le.mpr (by omega)
    exact Nat.pow_le_pow_right (by norm_num) h1
  refine ⟨?_, hbit ▸ hle, fun k hk => hbit ▸ hmin k hk⟩
  have hclog : n ≤ 2 ^ Nat.clog 2 n := @Nat.le_pow_clog 2 (by norm_num) n
  have h2 : Nat.size (n - 1) ≤ Nat.clog 2 n := Nat.size_le.mpr (by omega)
  have h3 : Nat.clog 2 n ≤ Nat.size (n - 1) :=
    (@Nat.le_pow_iff_clog_le 2 (by norm_num) n (Nat.size (n - 1))).mp hle
  rw [hbit, next_pow2_spec, le_antisymm h2 h3]

/-- Claim C4 (counterexample): at a 13 Hz sampling rate the code computes
`int(13 * 1.23) = int(15.99) = 15`, while the claim's
`max(1, round(13 * 1.23)) = round(15.99) = 16`. -/
theorem window_size_rounding_counterexample :
    window_size_of 13 = 15 ∧ window_size_round_claim 13 = 16 ∧
    window_size_of 13 ≠ window_size_round_claim 13 := by
  have h1 : window_size_of 13 = 15 := by
    have hf : ⌊(13 : ℚ) * MASTER_DURATION⌋ = 15 := by
      rw [MASTER_DURATION, Int.floor_eq_iff]
      norm_num
    rw [window_size_of, if_neg (by norm_num), hf]
    rfl
  have h2 : window_size_round_claim 13 = 16 := by
    have hf : round ((13 : ℚ) * MASTER_DURATION) = 16 := by
      rw [MASTER_DURATION, round_eq, Int.floor_eq_iff]
      norm_num
    rw [window_size_round_claim, if_neg (by norm_num), hf]
    rfl
  exact ⟨h1, h2, by omega⟩

/-- Claim C4 (amended): the window length uses Python `int(...)`
TRUNCATION, not rounding: for rates ≤ 1000 Hz it is
`max(1, trunc(r * 1.23))`, and for rates > 1000 Hz it is the least power of
two `≥ trunc(r * 1.0)` (the bit-trick is proved to realize exactly that
"next power of two"). -/
theorem window_size_truncates (odr : ℚ) (_pos : 0 < odr) :
    (odr ≤ 1000 → window_size_of odr = max 1 (Int.toNat ⌊odr * (123 / 100)⌋)) ∧
    (1000 < odr →
      window_size_of odr = next_pow2_spec (Int.toNat ⌊odr⌋) ∧
      Int.toNat ⌊odr⌋ ≤ window_size_of odr ∧
      ∀ k, Int.toNat ⌊odr⌋ ≤ 2 ^ k → window_size_of odr ≤ 2 ^ k) := by
  constructor
  · intro hle
    rw [window_size_of, if_neg (not_lt.mpr hle), MASTER_DURATION]
  · intro hgt
    have hfl : (1000 : ℤ) ≤ ⌊odr⌋ := Int.le_floor.mpr (by exact_mod_cast hgt.le)
    have hn : 1 ≤ Int.toNat ⌊odr⌋ := by omega
    have hw : window_size_of odr = next_pow2_bit (Int.toNat ⌊odr⌋) := by
      rw [window_size_of, if_pos hgt, TARGET_SECONDS, mul_one]
    obtain ⟨he, hge, hmin⟩ := next_pow2_bit_correct (Int.toNat ⌊odr⌋) hn
    exact ⟨hw ▸ he, hw ▸ hge, fun k hk => hw ▸ hmin k hk⟩

/-- Witness for the amended C4 at the concrete rates 13 Hz and 2000 Hz. -/
theorem window_size_truncates_witness :
    (0 : ℚ) < 13 ∧ (0 : ℚ) < 2000 ∧
    ((13 : ℚ) ≤ 1000 → window_size_of 13 = max 1 (Int.toNat ⌊(13 : ℚ) * (123 / 100)⌋)) ∧
    ((1000 : ℚ) < 2000 →
      window_size_of 2000 = next_pow2_spec (Int.toNat ⌊(2000 : ℚ)⌋) ∧
      Int.toNat ⌊(2000 : ℚ)⌋ ≤ window_size_of 2000 ∧
      ∀ k, Int.toNat ⌊(2000 : ℚ)⌋ ≤ 2 ^ k → window_size_of 2000 ≤ 2 ^ k) :=
  ⟨by norm_num, by norm_num,
    (window_size_truncates 13 (by norm_num)).1,
    (window_size_truncates 2000 (by norm_num)).2⟩

/-- Every output column built by `statColumns` holds one value per window. -/
theorem length_of_mem_statColumns {specFn : List ℚ → ℚ} {sName sType : String}
    {odr : ℚ} {n W : ℕ} {c : String × (ℕ → ℚ)} {col : String × List ℚ}
    (h : col ∈ statColumns specFn sName sType odr n W c) : col.2.length = n := by
  simp only [statColumns, List.mem_append, List.mem_cons, List.not_mem_nil,
    or_false] at h
  rcases h with (rfl | rfl | rfl | rfl | rfl) | h
  · simp
  · simp
  · simp
  · simp
  · simp
  · split at h
    · rw [List.mem_singleton] at h
      subst h
      simp
    · exact absurd h (List.not_mem_nil _)

/-- Claim C5 (confirmed): on any input with at least one data column and
any window length `W ≥ 1`, the extractor computes
`num_windows = ⌊L / W⌋`: if that is zero it returns the empty table, and
otherwise every column of the returned table (features and replicated
metadata alike) has exactly `num_windows` entries; and as a pure function
it returns identical output on identical input. -/
theorem extractor_windowing (specFn : List ℚ → ℚ) (df : PDataFrame) (W : ℕ)
    (sName sType : String) (metadata : List (String × String)) (odr : ℚ)
    (hcols : data_cols df ≠ []) (_hW : 1 ≤ W) :
    (df.nRows / W = 0 →
      process_sensor_dataframe_vectorized specFn df W sName sType metadata odr =
        emptyFeatureTable) ∧
    (df.nRows / W ≠ 0 →
      (process_sensor_dataframe_vectorized specFn df W sName sType metadata odr).feat ≠ [] ∧
      (∀ col ∈ (process_sensor_dataframe_vectorized specFn df W sName sType metadata odr).feat,
        col.2.length = df.nRows / W) ∧
      (∀ col ∈ (process_sensor_dataframe_vectorized specFn df W sName sType metadata odr).meta,
        col.2.length = df.nRows / W)) ∧
    process_sensor_dataframe_vectorized specFn df W sName sType metadata odr =
      process_sensor_dataframe_vectorized specFn df W sName sType metadata odr := by
  obtain ⟨c, cs, hdc⟩ : ∃ c cs, data_cols df = c :: cs := by
    cases hdc : data_cols df with
    | nil => exact absurd hdc hcols
    | cons c cs => exact ⟨c, cs, rfl⟩
  have hie : (data_cols df).isEmpty = false := by rw [hdc]; rfl
  refine ⟨?_, ?_, rfl⟩
  · intro h0
    simp [process_sensor_dataframe_vectorized, hie, h0]
  · intro hn0
    refine ⟨?_, ?_, ?_⟩
    · simp only [process_sensor_dataframe_vectorized, hie, Bool.false_eq_true,
        if_false, if_neg hn0, hdc, List.map_cons, List.flatten_cons]
      simp [statColumns]
    · intro col hcol
      simp only [process_sensor_dataframe_vectorized, hie, Bool.false_eq_true,
        if_false, if_neg hn0] at hcol
      rw [List.mem_flatten] at hcol
      obtain ⟨l, hl, hcl⟩ := hcol
      rw [List.mem_map] at hl
      obtain ⟨d, _, rfl⟩ := hl
      exact length_of_mem_statColumns hcl
    · intro col hcol
      simp only [process_sensor_dataframe_vectorized, hie, Bool.false_eq_true,
        if_false, if_neg hn0, List.mem_map] at hcol
      obtain ⟨kv, _, rfl⟩ := hcol
      simp

/-- Witness for C5 on a one-column, five-row frame with window length 2. -/
theorem extractor_windowing_witness :
    data_cols ⟨[("x", fun i => (i : ℚ))], 5⟩ ≠ [] ∧ 1 ≤ 2 ∧
    ((5 / 2 ≠ 0 →
      (process_sensor_dataframe_vectorized (fun _ => 0)
          ⟨[("x", fun i => (i : ℚ))], 5⟩ 2 "S" "ACC" [("Binary_Label", "OK")]
          100).feat ≠ [] ∧
      (∀ col ∈ (process_sensor_dataframe_vectorized (fun _ => 0)
          ⟨[("x", fun i => (i : ℚ))], 5⟩ 2 "S" "ACC" [("Binary_Label", "OK")]
          100).feat, col.2.length = 5 / 2) ∧
      (∀ col ∈ (process_sensor_dataframe_vectorized (fun _ => 0)
          ⟨[("x", fun i => (i : ℚ))], 5⟩ 2 "S" "ACC" [("Binary_Label", "OK")]
          100).meta, col.2.length = 5 / 2))) :=
  ⟨by simp [data_cols, tag_cols], by omega,
    ((extractor_windowing (fun _ => 0) ⟨[("x", fun i => (i : ℚ))], 5⟩ 2 "S"
        "ACC" [("Binary_Label", "OK")] 100
        (by simp [data_cols, tag_cols]) (by omega)).2.1)⟩

/-- `Forall₂` survives filtering on the first components when the relation
forces first components to agree. -/
theorem forall₂_filter_fst {R : (String × (ℕ → ℚ)) → (String × (ℕ → ℚ)) → Prop}
    (hR : ∀ a b, R a b → a.1 = b.1) (p : String → Bool)
    {l₁ l₂ : List (String × (ℕ → ℚ))} (h : List.Forall₂ R l₁ l₂) :
    List.Forall₂ R (l₁.filter fun c => p c.1) (l₂.filter fun c => p c.1) := by
  induction h with
  | nil => simp
  | @cons a b l₁ l₂ hab hl ih =>
    rw [List.filter_cons, List.filter_cons, hR a b hab]
    by_cases hp : p b.1 = true
    · rw [if_pos hp, if_pos hp]
      exact List.Forall₂.cons hab ih
    · rw [if_neg hp, if_neg hp]
      exact ih

/-- Mapping a function that respects the relation sends `Forall₂`-related
lists to equal lists. -/
theorem map_eq_of_forall₂ {α β : Type _} {R : α → α → Prop} {f : α → β}
    (hf : ∀ a b, R a b → f a = f b) {l₁ l₂ : List α}
    (h : List.Forall₂ R l₁ l₂) : l₁.map f = l₂.map f := by
  induction h with
  | nil => rfl
  | cons hab _ ih => simp only [List.map_cons, hf _ _ hab, ih]

/-- The columns `statColumns` produces depend on the samples only through
the windows `0 … n-1`, i.e. through the first `n * W` sample indices. -/
theorem statColumns_congr (specFn : List ℚ → ℚ) (sName sType : String)
    (odr : ℚ) (n W : ℕ) (c₁ c₂ : String × (ℕ → ℚ)) (hname : c₁.1 = c₂.1)
    (hval : ∀ i, i < n * W → c₁.2 i = c₂.2 i) :
    statColumns specFn sName sType odr n W c₁ =
      statColumns specFn sName sType odr n W c₂ := by
  have hws : ∀ w, w < n → windowSlice c₁.2 w W = windowSlice c₂.2 w W := by
    intro w hw
    unfold windowSlice
    refine List.map_congr_left fun i hi => ?_
    rw [List.mem_range] at hi
    apply hval
    have h1 : w * W + i < (w + 1) * W := by rw [Nat.succ_mul]; omega
    have h2 : (w + 1) * W ≤ n * W := Nat.mul_le_mul_right W (by omega)
    omega
  have hmap : ∀ g : List ℚ → ℚ,
      ((List.range n).map fun w => g (windowSlice c₁.2 w W)) =
        ((List.range n).map fun w => g (windowSlice c₂.2 w W)) := by
    intro g
    refine List.map_congr_left fun w hw => ?_
    rw [List.mem_range] at hw
    rw [hws w hw]
  simp only [statColumns, hname, hmap listMean, hmap listStdSq, hmap listPeak,
    hmap listKurtosis, hmap listRmsSq, hmap specFn]

/-- Claim C6 (confirmed): the extractor's output depends only on the first
`⌊L/W⌋ * W` samples of each column — two frames with the same column names
and row count that agree there (and may differ arbitrarily on the dropped
tail) produce identical output, for every abstracted spectral feature. -/
theorem extractor_tail_drop (specFn : List ℚ → ℚ) (df₁ df₂ : PDataFrame)
    (W : ℕ) (sName sType : String) (metadata : List (String × String))
    (odr : ℚ) (hn : df₁.nRows = df₂.nRows)
    (hc : List.Forall₂ (fun c₁ c₂ : String × (ℕ → ℚ) =>
        c₁.1 = c₂.1 ∧ ∀ i, i < df₁.nRows / W * W → c₁.2 i = c₂.2 i)
      df₁.cols df₂.cols) :
    process_sensor_dataframe_vectorized specFn df₁ W sName sType metadata odr =
      process_sensor_dataframe_vectorized specFn df₂ W sName sType metadata odr := by
  have hd := forall₂_filter_fst (fun a b hab => hab.1)
    (fun s => !(tag_cols.contains s)) hc
  have hlen : (data_cols df₁).length = (data_cols df₂).length :=
    List.Forall₂.length_eq hd
  have hie : (data_cols df₂).isEmpty = (data_cols df₁).isEmpty := by
    cases h1 : data_cols df₁ with
    | nil =>
      rw [h1] at hlen
      simp only [List.length_nil] at hlen
      rw [List.length_eq_zero.mp hlen.symm]
    | cons c cs =>
      cases h2 : data_cols df₂ with
      | nil =>
        rw [h1, h2] at hlen
        simp at hlen
      | cons d ds => rfl
  have hmapeq : (data_cols df₁).map
        (statColumns specFn sName sType odr (df₁.nRows / W) W) =
      (data_cols df₂).map
        (statColumns specFn sName sType odr (df₁.nRows / W) W) :=
    map_eq_of_forall₂
      (fun a b hab =>
        statColumns_congr specFn sName sType odr (df₁.nRows / W) W a b
          hab.1 hab.2) hd
  simp only [process_sensor_dataframe_vectorized, hie, ← hn]
  by_cases h1 : (data_cols df₁).isEmpty = true
  · simp [h1]
  · by_cases h0 : df₁.nRows / W = 0
    · simp [h1, h0]
    · simp [h1, h0, hmapeq]

/-- Witness for C6: three samples, window length 2 — the two frames agree
on the two windowed samples and differ at the dropped tail index 2, yet
produce identical feature tables. -/
theorem extractor_tail_drop_witness :
    (List.Forall₂ (fun c₁ c₂ : String × (ℕ → ℚ) =>
        c₁.1 = c₂.1 ∧ ∀ i, i < 3 / 2 * 2 → c₁.2 i = c₂.2 i)
      [("x", fun i => if i = 2 then 5 else (i : ℚ))]
      [("x", fun i => if i = 2 then 99 else (i : ℚ))]) ∧
    process_sensor_dataframe_vectorized (fun _ => 0)
        ⟨[("x", fun i => if i = 2 then 5 else (i : ℚ))], 3⟩ 2 "S" "ACC"
        [("Binary_Label", "OK")] 100 =
      process_sensor_dataframe_vectorized (fun _ => 0)
        ⟨[("x", fun i => if i = 2 then 99 else (i : ℚ))], 3⟩ 2 "S" "ACC"
        [("Binary_Label", "OK")] 100 := by
  have hfa : List.Forall₂ (fun c₁ c₂ : String × (ℕ → ℚ) =>
      c₁.1 = c₂.1 ∧ ∀ i, i < 3 / 2 * 2 → c₁.2 i = c₂.2 i)
      [("x", fun i => if i = 2 then 5 else (i : ℚ))]
      [("x", fun i => if i = 2 then 99 else (i : ℚ))] := by
    refine List.Forall₂.cons ⟨rfl, ?_⟩ List.Forall₂.nil
    intro i hi
    have h2 : i < 2 := by omega
    interval_cases i <;> norm_num
  exact ⟨hfa,
    extractor_tail_drop (fun _ => 0)
      ⟨[("x", fun i => if i = 2 then 5 else (i : ℚ))], 3⟩
      ⟨[("x", fun i => if i = 2 then 99 else (i : ℚ))], 3⟩ 2 "S" "ACC"
      [("Binary_Label", "OK")] 100 rfl hfa⟩

/-- Membership in the `available_map` index. -/
theorem mem_keyedFiles {files : List Stem} {e : (Stem × Stem) × Stem} :
    e ∈ keyedFiles files ↔ e.2 ∈ files ∧ stemKey e.2 = some e.1 := by
  simp only [keyedFiles, List.mem_filterMap, Option.map_eq_some']
  constructor
  · rintro ⟨f, hf, p, hp, rfl⟩
    exact ⟨hf, hp⟩
  · rintro ⟨hf, hp⟩
    exact ⟨e.2, hf, e.1, hp, rfl⟩

/-- Membership in the `[None, None]` resolution set. -/
theorem mem_allKeyedPaths {files : List Stem} {p : Stem} :
    p ∈ allKeyedPaths files ↔ p ∈ files ∧ ∃ n t, stemKey p = some (n, t) := by
  simp only [allKeyedPaths, List.mem_map, mem_keyedFiles]
  constructor
  · rintro ⟨⟨⟨n, t⟩, q⟩, ⟨hq, hk⟩, rfl⟩
    exact ⟨hq, n, t, hk⟩
  · rintro ⟨hp, n, t, hk⟩
    exact ⟨((n, t), p), ⟨hp, hk⟩, rfl⟩

/-- Membership in a type-wildcard resolution set. -/
theorem mem_typePaths {files : List Stem} {t p : Stem} :
    p ∈ typePaths files t ↔ p ∈ files ∧ ∃ n, stemKey p = some (n, t) := by
  simp only [typePaths, List.mem_map, List.mem_filter, mem_keyedFiles]
  constructor
  · rintro ⟨⟨⟨n, t2⟩, q⟩, ⟨⟨hq, hk⟩, hbeq⟩, rfl⟩
    have ht : t2 = t := by simpa using hbeq
    subst ht
    exact ⟨hq, n, hk⟩
  · rintro ⟨hp, n, hk⟩
    exact ⟨((n, t), p), ⟨⟨hp, hk⟩, by simp⟩, rfl⟩

/-- Membership in a name's resolution set. -/
theorem mem_namePaths {files : List Stem} {n p : Stem} :
    p ∈ namePaths files n ↔ p ∈ files ∧ ∃ t, stemKey p = some (n, t) := by
  simp only [namePaths, List.mem_map, List.mem_filter, mem_keyedFiles]
  constructor
  · rintro ⟨⟨⟨n2, t⟩, q⟩, ⟨⟨hq, hk⟩, hbeq⟩, rfl⟩
    have hn : n2 = n := by simpa using hbeq
    subst hn
    exact ⟨hq, t, hk⟩
  · rintro ⟨hp, t, hk⟩
    exact ⟨((n, t), p), ⟨⟨hp, hk⟩, by simp⟩, rfl⟩

/-- Membership in an exact-pair resolution set. -/
theorem mem_exactPaths {files : List Stem} {n t p : Stem} :
    p ∈ exactPaths files n t ↔ p ∈ files ∧ stemKey p = some (n, t) := by
  simp only [exactPaths, List.mem_map, List.mem_filter, mem_keyedFiles,
    Bool.and_eq_true]
  constructor
  · rintro ⟨⟨⟨n2, t2⟩, q⟩, ⟨⟨hq, hk⟩, hbn, hbt⟩, rfl⟩
    have hn : n2 = n := by simpa using hbn
    have ht : t2 = t := by simpa using hbt
    subst hn; subst ht
    exact ⟨hq, hk⟩
  · rintro ⟨hp, hk⟩
    exact ⟨((n, t), p), ⟨⟨hp, hk⟩, by simp, by simp⟩, rfl⟩

/-- `req_name in available_map`, characterized over the files. -/
theorem nameExistsB_iff {files : List Stem} {n : Stem} :
    nameExistsB files n = true ↔ ∃ f ∈ files, ∃ t, stemKey f = some (n, t) := by
  simp only [nameExistsB, List.any_eq_true, mem_keyedFiles]
  constructor
  · rintro ⟨⟨⟨n2, t⟩, q⟩, ⟨hq, hk⟩, hbeq⟩
    have hn : n2 = n := by simpa using hbeq
    subst hn
    exact ⟨q, hq, t, hk⟩
  · rintro ⟨f, hf, t, hk⟩
    exact ⟨((n, t), f), ⟨hf, hk⟩, by simp⟩

/-- The code's per-request validity test agrees with the claim-level
satisfiability predicate. -/
theorem reqOk_iff_SatReq (files : List Stem) (req : SensorRequest) :
    reqOk files req = true ↔ SatReq files req := by
  rcases req with ⟨nn, tt⟩
  rcases nn with _ | n <;> rcases tt with _ | t
  · simp [reqOk, SatReq]
  · simp only [reqOk, SatReq, Bool.not_eq_true']
    constructor
    · intro h
      have hne : typePaths files t ≠ [] := by
        intro hnil
        rw [hnil] at h
        simp at h
      obtain ⟨p, hp⟩ := List.exists_mem_of_ne_nil _ hne
      obtain ⟨hpf, n, hk⟩ := mem_typePaths.mp hp
      exact ⟨p, hpf, n, hk⟩
    · rintro ⟨f, hf, n, hk⟩
      have hm : f ∈ typePaths files t := mem_typePaths.mpr ⟨hf, n, hk⟩
      cases htp : typePaths files t with
      | nil => rw [htp] at hm; simp at hm
      | cons a as => rfl
  · simpa [reqOk, SatReq] using nameExistsB_iff
  · simp only [reqOk, SatReq, Bool.not_eq_true']
    constructor
    · intro h
      have hne : exactPaths files n t ≠ [] := by
        intro hnil
        rw [hnil] at h
        simp at h
      obtain ⟨p, hp⟩ := List.exists_mem_of_ne_nil _ hne
      obtain ⟨hpf, hk⟩ := mem_exactPaths.mp hp
      exact ⟨p, hpf, hk⟩
    · rintro ⟨f, hf, hk⟩
      have hm : f ∈ exactPaths files n t := mem_exactPaths.mpr ⟨hf, hk⟩
      cases htp : exactPaths files n t with
      | nil => rw [htp] at hm; simp at hm
      | cons a as => rfl

/-- The code's per-request hit list agrees with the claim-level resolution
relation. -/
theorem mem_reqHits_iff (files : List Stem) (req : SensorRequest) (p : Stem) :
    p ∈ reqHits files req ↔ ReqResolves files req p := by
  rcases req with ⟨nn, tt⟩
  rcases nn with _ | n <;> rcases tt with _ | t
  · simpa [reqHits, ReqResolves] using mem_allKeyedPaths
  · simpa [reqHits, ReqResolves] using mem_typePaths
  · simp only [reqHits, ReqResolves]
    by_cases hex : nameExistsB files n = true
    · rw [if_pos hex]
      exact mem_namePaths
    · rw [if_neg hex]
      simp only [List.not_mem_nil, false_iff]
      rintro ⟨hp, t, hk⟩
      exact hex (nameExistsB_iff.mpr ⟨p, hp, t, hk⟩)
  · simpa [reqHits, ReqResolves] using mem_exactPaths

/-- Unrolling the request loop: the final flag is the conjunction of the
per-request tests, the final path list is the concatenation of the
per-request hits. -/
theorem resolve_foldl (files : List Stem) (ts : List SensorRequest) :
    ∀ (b : Bool) (ps : List Stem),
      ts.foldl (resolveStep files) (b, ps) =
        (b && ts.all (reqOk files), ps ++ (ts.map (reqHits files)).flatten) := by
  induction ts with
  | nil =>
    intro b ps
    simp
  | cons r ts ih =>
    intro b ps
    simp only [List.foldl_cons, resolveStep, List.all_cons, List.map_cons,
      List.flatten_cons, ih, Bool.and_assoc, List.append_assoc]

/-- Claim C7 (confirmed): over any duplicate-free file listing,
`get_valid_sensor_files` (1) returns `(True, all files)` on the empty
batch; (2) returns flag `True` exactly when every request of the batch is
satisfiable — where `(None, None)` always is, `(None, t)` is satisfiable
iff some name has type `t`, `(n, None)` iff name `n` has any table, and
`(n, t)` iff the exact key exists; (3) returns, for a nonempty batch,
precisely the union of the per-request resolutions — so one unsatisfiable
request flips the flag to `False` while the other requests' paths are
still returned; and (4) returns a duplicate-free path list. -/
theorem resolver_request_semantics (files : List Stem)
    (ts : List SensorRequest) (hnd : files.Nodup) :
    (ts = [] → get_valid_sensor_files files ts = (true, files)) ∧
    ((get_valid_sensor_files files ts).1 = true ↔
      ∀ req ∈ ts, SatReq files req) ∧
    (ts ≠ [] → ∀ p, p ∈ (get_valid_sensor_files files ts).2 ↔
      ∃ req ∈ ts, ReqResolves files req p) ∧
    (get_valid_sensor_files files ts).2.Nodup := by
  cases ts with
  | nil =>
    refine ⟨fun _ => by simp [get_valid_sensor_files], ?_, ?_, ?_⟩
    · simp [get_valid_sensor_files]
    · intro h
      exact absurd rfl h
    · simpa [get_valid_sensor_files] using hnd
  | cons r ts =>
    have hne : ¬((r :: ts : List SensorRequest).isEmpty = true) := by simp
    have hfold := resolve_foldl files (r :: ts) true []
    refine ⟨fun h => by simp at h, ?_, ?_, ?_⟩
    · simp only [get_valid_sensor_files, if_neg hne, hfold, Bool.true_and,
        List.nil_append, List.all_eq_true]
      constructor
      · intro h req hreq
        exact (reqOk_iff_SatReq files req).mp (h req hreq)
      · intro h req hreq
        exact (reqOk_iff_SatReq files req).mpr (h req hreq)
    · intro _ p
      simp only [get_valid_sensor_files, if_neg hne, hfold, Bool.true_and,
        List.nil_append, List.mem_dedup, List.mem_flatten, List.mem_map]
      constructor
      · rintro ⟨l, ⟨req, hreq, rfl⟩, hpl⟩
        exact ⟨req, hreq, (mem_reqHits_iff files req p).mp hpl⟩
      · rintro ⟨req, hreq, hres⟩
        exact ⟨reqHits files req, ⟨req, hreq, rfl⟩,
          (mem_reqHits_iff files req p).mpr hres⟩
    · simp only [get_valid_sensor_files, if_neg hne]
      exact List.nodup_dedup _

/-- Witness for C7 on the spec's synthetic file set
`{A_ACC, A_GYRO, B_ACC}` with the type-wildcard batch `[(None, ACC)]`. -/
theorem resolver_request_semantics_witness :
    (["A_ACC".toList, "A_GYRO".toList, "B_ACC".toList] : List Stem).Nodup ∧
    ((([(none, some "ACC".toList)] : List SensorRequest) = [] →
      get_valid_sensor_files ["A_ACC".toList, "A_GYRO".toList, "B_ACC".toList]
          [(none, some "ACC".toList)] =
        (true, ["A_ACC".toList, "A_GYRO".toList, "B_ACC".toList])) ∧
    ((get_valid_sensor_files ["A_ACC".toList, "A_GYRO".toList, "B_ACC".toList]
        [(none, some "ACC".toList)]).1 = true ↔
      ∀ req ∈ ([(none, some "ACC".toList)] : List SensorRequest),
        SatReq ["A_ACC".toList, "A_GYRO".toList, "B_ACC".toList] req) ∧
    (([(none, some "ACC".toList)] : List SensorRequest) ≠ [] →
      ∀ p, p ∈ (get_valid_sensor_files
          ["A_ACC".toList, "A_GYRO".toList, "B_ACC".toList]
          [(none, some "ACC".toList)]).2 ↔
        ∃ req ∈ ([(none, some "ACC".toList)] : List SensorRequest),
          ReqResolves ["A_ACC".toList, "A_GYRO".toList, "B_ACC".toList] req p) ∧
    (get_valid_sensor_files ["A_ACC".toList, "A_GYRO".toList, "B_ACC".toList]
        [(none, some "ACC".toList)]).2.Nodup) :=
  ⟨by decide,
    resolver_request_semantics
      ["A_ACC".toList, "A_GYRO".toList, "B_ACC".toList]
      [(none, some "ACC".toList)] (by decide)⟩

/-- `splitFirst` returns `none` exactly on separator-free strings. -/
theorem splitFirst_eq_none_iff {sep : Char} {l : List Char} :
    splitFirst sep l = none ↔ sep ∉ l := by
  induction l with
  | nil => simp [splitFirst]
  | cons c cs ih =>
    by_cases hc : c = sep
    · subst hc
      simp [splitFirst]
    · simp only [splitFirst, if_neg hc, Option.map_eq_none', ih, List.mem_cons]
      constructor
      · intro hn hmem
        rcases hmem with hm | hm
        · exact hc hm.symm
        · exact hn hm
      · intro hn hm
        exact hn (Or.inr hm)

/-- Soundness of `splitFirst`: it splits at the FIRST separator. -/
theorem eq_of_splitFirst_some {sep : Char} : ∀ {l a b : List Char},
    splitFirst sep l = some (a, b) → l = a ++ sep :: b ∧ sep ∉ a := by
  intro l
  induction l with
  | nil => intro a b h; simp [splitFirst] at h
  | cons c cs ih =>
    intro a b h
    by_cases hc : c = sep
    · subst hc
      simp only [splitFirst, if_true, eq_self_iff_true, Option.some.injEq,
        Prod.mk.injEq, true_and] at h
      obtain ⟨ha, hb⟩ := h
      subst ha
      subst hb
      exact ⟨rfl, by simp⟩
    · simp only [splitFirst, if_neg hc, Option.map_eq_some'] at h
      obtain ⟨⟨a2, b2⟩, hs, heq⟩ := h
      simp only [Prod.mk.injEq] at heq
      obtain ⟨ha, hb⟩ := heq
      subst ha
      subst hb
      obtain ⟨hl, hna⟩ := ih hs
      refine ⟨by rw [hl]; rfl, ?_⟩
      intro hmem
      rcases List.mem_cons.mp hmem with hm | hm
      · exact hc hm.symm
      · exact hna hm

/-- Completeness of `splitFirst` on a string with a marked first
separator. -/
theorem splitFirst_append_sep {sep : Char} {a b : List Char} (ha : sep ∉ a) :
    splitFirst sep (a ++ sep :: b) = some (a, b) := by
  induction a with
  | nil => simp [splitFirst]
  | cons c cs ih =>
    have hc : ¬(c = sep) := by
      intro h
      exact ha (h ▸ List.mem_cons_self c cs)
    have hcs : sep ∉ cs := fun hm => ha (List.mem_cons_of_mem c hm)
    have h2 := ih hcs
    calc splitFirst sep ((c :: cs) ++ sep :: b)
        = (splitFirst sep (cs ++ sep :: b)).map fun p => (c :: p.1, p.2) := by
          simp only [List.cons_append, splitFirst, if_neg hc]
          rfl
      _ = some (c :: cs, b) := by rw [h2]; rfl

/-- `splitAll` on a separator-free string. -/
theorem splitAll_of_none {sep : Char} {l : List Char}
    (h : splitFirst sep l = none) : splitAll sep l = [l] := by
  induction l with
  | nil => simp [splitAll]
  | cons c cs ih =>
    by_cases hc : c = sep
    · subst hc
      simp [splitFirst] at h
    · simp only [splitFirst, if_neg hc, Option.map_eq_none'] at h
      simp [splitAll, hc, ih h]

/-- `splitAll` peels off the first fragment found by `splitFirst`. -/
theorem splitAll_of_some {sep : Char} : ∀ {l a b : List Char},
    splitFirst sep l = some (a, b) → splitAll sep l = a :: splitAll sep b := by
  intro l
  induction l with
  | nil => intro a b h; simp [splitFirst] at h
  | cons c cs ih =>
    intro a b h
    by_cases hc : c = sep
    · subst hc
      simp only [splitFirst, if_true, eq_self_iff_true, Option.some.injEq,
        Prod.mk.injEq, true_and] at h
      obtain ⟨ha, hb⟩ := h
      subst ha
      subst hb
      simp [splitAll]
    · simp only [splitFirst, if_neg hc, Option.map_eq_some'] at h
      obtain ⟨⟨a2, b2⟩, hs, heq⟩ := h
      simp only [Prod.mk.injEq] at heq
      obtain ⟨ha, hb⟩ := heq
      subst ha
      subst hb
      simp [splitAll, hc, ih hs]

/-- Claim C10 (confirmed): for a parquet stem with exactly one underscore,
the Acquisition Processor's key (`split("_")[0] + "_" + split("_")[1]`) is
the stem itself and the Resolver's first-underscore parse recovers exactly
the original `(name, type)` pair; for a stem with two or more underscores
the key keeps only the first two tokens, so the Resolver parses the second
token alone as the type and the remaining tokens are lost. -/
theorem sensor_key_roundtrip (stem : Stem) :
    (stem.count '_' = 1 →
      ∃ n t, processor_key_parts stem = some (n, t) ∧
        sensor_key n t = stem ∧
        stemKey (sensor_key n t) = some (n, t)) ∧
    (2 ≤ stem.count '_' →
      ∃ n t rest, processor_key_parts stem = some (n, t) ∧
        stemKey (sensor_key n t) = some (n, t) ∧
        stemKey stem = some (n, t ++ '_' :: rest) ∧
        t ++ '_' :: rest ≠ t) := by
  constructor
  · intro h1
    have hmem : '_' ∈ stem := List.count_pos_iff.mp (by omega)
    obtain ⟨⟨n, r⟩, hsf⟩ : ∃ p, splitFirst '_' stem = some p := by
      cases hs : splitFirst '_' stem with
      | none => exact absurd (splitFirst_eq_none_iff.mp hs) (by simp [hmem])
      | some p => exact ⟨p, rfl⟩
    obtain ⟨hst, hna⟩ := eq_of_splitFirst_some hsf
    have hcr : r.count '_' = 0 := by
      rw [hst, List.count_append, List.count_cons_self,
        List.count_eq_zero.mpr hna] at h1
      omega
    have hrnone : splitFirst '_' r = none :=
      splitFirst_eq_none_iff.mpr (List.count_eq_zero.mp hcr)
    have hsa : splitAll '_' stem = [n, r] := by
      rw [splitAll_of_some hsf, splitAll_of_none hrnone]
    refine ⟨n, r, ?_, ?_, ?_⟩
    · simp [processor_key_parts, hsa]
    · simp only [sensor_key, hst]
    · exact splitFirst_append_sep hna
  · intro h2
    have hmem : '_' ∈ stem := List.count_pos_iff.mp (by omega)
    obtain ⟨⟨n, r⟩, hsf⟩ : ∃ p, splitFirst '_' stem = some p := by
      cases hs : splitFirst '_' stem with
      | none => exact absurd (splitFirst_eq_none_iff.mp hs) (by simp [hmem])
      | some p => exact ⟨p, rfl⟩
    obtain ⟨hst, hna⟩ := eq_of_splitFirst_some hsf
    have hcr : 1 ≤ r.count '_' := by
      rw [hst, List.count_append, List.count_cons_self,
        List.count_eq_zero.mpr hna] at h2
      omega
    have hmemr : '_' ∈ r := List.count_pos_iff.mp (by omega)
    obtain ⟨⟨t, rest⟩, hsr⟩ : ∃ p, splitFirst '_' r = some p := by
      cases hs : splitFirst '_' r with
      | none => exact absurd (splitFirst_eq_none_iff.mp hs) (by simp [hmemr])
      | some p => exact ⟨p, rfl⟩
    obtain ⟨hrt, hnt⟩ := eq_of_splitFirst_some hsr
    have hsa : splitAll '_' stem = n :: t :: splitAll '_' rest := by
      rw [splitAll_of_some hsf, splitAll_of_some hsr]
    refine ⟨n, t, rest, ?_, ?_, ?_, ?_⟩
    · simp [processor_key_parts, hsa]
    · exact splitFirst_append_sep hna
    · have hks : stemKey stem = some (n, r) := hsf
      rw [hks, hrt]
    · intro heq
      have hlen := congrArg List.length heq
      simp only [List.length_append, List.length_cons] at hlen
      omega

/-- Witness for C10 on the stems `A_ACC` (one underscore) and `A_B_C`
(two underscores). -/
theorem sensor_key_roundtrip_witness :
    ("A_ACC".toList.count '_' = 1) ∧
    (∃ n t, processor_key_parts "A_ACC".toList = some (n, t) ∧
      sensor_key n t = "A_ACC".toList ∧
      stemKey (sensor_key n t) = some (n, t)) ∧
    (2 ≤ "A_B_C".toList.count '_') ∧
    (∃ n t rest, processor_key_parts "A_B_C".toList = some (n, t) ∧
      stemKey (sensor_key n t) = some (n, t) ∧
      stemKey "A_B_C".toList = some (n, t ++ '_' :: rest) ∧
      t ++ '_' :: rest ≠ t) :=
  ⟨by decide, (sensor_key_roundtrip "A_ACC".toList).1 (by decide),
   by decide, (sensor_key_roundtrip "A_B_C".toList).2 (by decide)⟩
